import Mathlib

/-!
Verification of the chunked ingestion pipeline
(`01-docker-terraform/docker-sql/pipeline/pipeline.py`).

The embedding keeps the source's structure: `detect_format` mirrors the
suffix inspection, `read_data_chunked` mirrors the generator (the csv
branch delegates decoding to an abstract `decode_csv` function standing
for `pd.read_csv`, the parquet branch decodes the whole table — the
abstract `decode_parquet` list standing for `pd.read_parquet(url)` — and
slices it with Python `range` / slice semantics, modelled faithfully on
`Int`), and `run` mirrors the click command, recording its externally
visible database effects as a trace of events.
-/

namespace Pipeline

/-- Python exceptions surfaced by the pipeline: `ValueError` (from the
reader or from `range`/pandas argument validation) and `click.UsageError`. -/
inductive PyError where
  | valueError (msg : String)
  | usageError (msg : String)
deriving DecidableEq, Repr

/-- A pandas dtype mapping, e.g. `{"VendorID": "Int64", ...}`:
column name paired with dtype name. -/
abbrev Dtype := List (String × String)

/-- A `parse_dates` column list. -/
abbrev ParseDates := List String

/-- Yellow taxi dtype (pipeline.py lines 10-27). -/
def yellow_dtype : Dtype :=
  [("VendorID", "Int64"),
   ("passenger_count", "Int64"),
   ("trip_distance", "float64"),
   ("RatecodeID", "Int64"),
   ("store_and_fwd_flag", "string"),
   ("PULocationID", "Int64"),
   ("DOLocationID", "Int64"),
   ("payment_type", "Int64"),
   ("fare_amount", "float64"),
   ("extra", "float64"),
   ("mta_tax", "float64"),
   ("tip_amount", "float64"),
   ("tolls_amount", "float64"),
   ("improvement_surcharge", "float64"),
   ("total_amount", "float64"),
   ("congestion_surcharge", "float64")]

/-- Yellow taxi date columns (pipeline.py line 29). -/
def yellow_parse_dates : ParseDates :=
  ["tpep_pickup_datetime", "tpep_dropoff_datetime"]

/-- Green taxi dtype (pipeline.py lines 32-50). -/
def green_dtype : Dtype :=
  [("VendorID", "Int64"),
   ("passenger_count", "Int64"),
   ("trip_distance", "float64"),
   ("RatecodeID", "Int64"),
   ("store_and_fwd_flag", "string"),
   ("PULocationID", "Int64"),
   ("DOLocationID", "Int64"),
   ("payment_type", "Int64"),
   ("fare_amount", "float64"),
   ("extra", "float64"),
   ("mta_tax", "float64"),
   ("tip_amount", "float64"),
   ("tolls_amount", "float64"),
   ("improvement_surcharge", "float64"),
   ("total_amount", "float64"),
   ("congestion_surcharge", "float64"),
   ("trip_type", "Int64")]

/-- Green taxi date columns (pipeline.py line 52). -/
def green_parse_dates : ParseDates :=
  ["lpep_pickup_datetime", "lpep_dropoff_datetime"]

/-- `detect_format` (pipeline.py lines 55-62): lowercase the url and test
its suffix; `str.endswith` is the list-suffix relation on the characters. -/
def detect_format (url : String) : Option String :=
  let url_lower := url.toList.map Char.toLower
  if ".parquet".toList <:+ url_lower then some "parquet"
  else if ".csv.gz".toList <:+ url_lower ∨ ".csv".toList <:+ url_lower then some "csv"
  else none

/-- Number of elements of Python `range(start, stop, step)`.
Python raises `ValueError` on `step = 0`; the pipeline's only caller
guards that case before building the range, so the value returned here
for `step = 0` is never used. -/
def pyRangeCount (start stop step : Int) : Nat :=
  if 0 < step then ((stop - start).toNat + (step.toNat - 1)) / step.toNat
  else if step < 0 then ((start - stop).toNat + ((-step).toNat - 1)) / (-step).toNat
  else 0

/-- Python `range(start, stop, step)` as the list of produced ints. -/
def pyRange (start stop step : Int) : List Int :=
  (List.range (pyRangeCount start stop step)).map (fun (k : Nat) => start + step * (k : Int))

/-- Python slice `l[start:stop]` (also `DataFrame.iloc[start:stop]`):
negative indices count from the end, then both bounds clamp to `[0, len]`. -/
def pySlice {α : Type} (l : List α) (start stop : Int) : List α :=
  let n : Int := l.length
  let norm : Int → Nat := fun i => if i < 0 then (n + i).toNat else (min i n).toNat
  (l.take (norm stop)).drop (norm start)

/-- The parquet branch of `read_data_chunked` (pipeline.py lines 78-80):
`for start in range(0, len(df), chunksize): yield df.iloc[start : start + chunksize]`. -/
def parquet_chunks {α : Type} (df : List α) (chunksize : Int) : List (List α) :=
  (pyRange 0 (df.length : Int) chunksize).map
    (fun start => pySlice df start (start + chunksize))

/-- Successive chunks of `c` records, the documented behaviour of the
`pd.read_csv(..., iterator=True, chunksize=c)` iterator on the decoded
record stream (pandas validates `c ≥ 1`, so `c = 0` never reaches this). -/
def chunkList {α : Type} : Nat → List α → List (List α)
  | _, [] => []
  | 0, _ :: _ => []
  | c + 1, x :: xs => (x :: xs.take c) :: chunkList (c + 1) (xs.drop c)
termination_by _ l => l.length
decreasing_by
  simp only [List.length_drop, List.length_cons]
  omega

/-- Python str-formatting of the `file_format` argument as it appears in
the f-string `f"Unsupported format: {file_format}"`. -/
def pyFormatArg : Option String → String
  | none => "None"
  | some s => s

/-- `read_data_chunked` (pipeline.py lines 65-82). The source url is
abstracted by its two decodings: `decode_csv hints dates` is the record
stream `pd.read_csv(url, dtype=hints, parse_dates=dates, ...)` decodes,
and `decode_parquet` is the table `pd.read_parquet(url)` decodes (that
call takes no hint arguments). Errors raised while the generator runs
(pandas chunksize validation, `range` step validation, the explicit
`ValueError` of the else branch) surface as `Except.error`. -/
def read_data_chunked {α : Type} (decode_csv : Option Dtype → Option ParseDates → List α)
    (decode_parquet : List α) (file_format : Option String) (chunksize : Int)
    (use_dtype : Option Dtype) (use_parse_dates : Option ParseDates) :
    Except PyError (List (List α)) :=
  if file_format = some "csv" then
    if chunksize < 1 then
      Except.error (PyError.valueError "chunksize must be an integer at least 1")
    else
      Except.ok (chunkList chunksize.toNat (decode_csv use_dtype use_parse_dates))
  else if file_format = some "parquet" then
    if chunksize = 0 then
      Except.error (PyError.valueError "range arg 3 must not be zero")
    else
      Except.ok (parquet_chunks decode_parquet chunksize)
  else
    Except.error (PyError.valueError ("Unsupported format: " ++ pyFormatArg file_format))

/-- The externally visible effects of `run`: engine creation, the
`head(0).to_sql(..., if_exists="replace")` table creation recording which
batch supplied the schema, each `to_sql(..., if_exists="append")`, the
per-batch `print(f"Inserted: {len(df_chunk)}")`, and the final print. -/
inductive Event (α : Type) where
  | createEngine
  | createTable (table : String) (schemaFrom : List α)
  | append (table : String) (batch : List α)
  | printInserted (n : Nat)
  | printFinished (table : String)
deriving DecidableEq, Repr

/-- One iteration of the load loop (pipeline.py lines 159-166): the
accumulator carries the events so far and the `first` flag. -/
def loadStep {α : Type} (tbl : String) (acc : List (Event α) × Bool) (chunk : List α) :
    List (Event α) × Bool :=
  let evs := if acc.2 then acc.1 ++ [Event.createTable tbl chunk] else acc.1
  (evs ++ [Event.append tbl chunk, Event.printInserted chunk.length], false)

/-- The event trace of the load loop over the whole batch sequence,
starting from `first = True`. -/
def loadEvents {α : Type} (tbl : String) (batches : List (List α)) : List (Event α) :=
  (batches.foldl (loadStep tbl) ([], true)).1

/-- The load-loop trace in explicit form: nothing for an empty sequence;
otherwise one table creation from the first batch, followed by an
append and a count report for every batch (first included), in order. -/
def loadEventsSpec {α : Type} (tbl : String) : List (List α) → List (Event α)
  | [] => []
  | b :: bs =>
      Event.createTable tbl b ::
        ((b :: bs).map (fun c => [Event.append tbl c, Event.printInserted c.length])).flatten

/-- Hint selection from `--taxi-type` (pipeline.py lines 126-133):
`use_dtype`/`use_parse_dates` start as `None` and are set for "yellow"
or "green". -/
def taxiHints (taxi_type : Option String) : Option Dtype × Option ParseDates :=
  if taxi_type = some "yellow" then (some yellow_dtype, some yellow_parse_dates)
  else if taxi_type = some "green" then (some green_dtype, some green_parse_dates)
  else (none, none)

/-- Format resolution (pipeline.py lines 136-137): an explicit `--format`
override is used directly, otherwise the format is detected from the url. -/
def resolveFormat (file_format : Option String) (url : String) : Option String :=
  match file_format with
  | some f => some f
  | none => detect_format url

/-- The engine creation and load loop of `run` (pipeline.py lines 149-168)
applied to the reader's outcome: a reader error surfaces at the first
iteration of the `for` loop, after `create_engine`; otherwise the loop
runs over all batches and the completion message is printed. -/
def runLoad {α : Type} (target_table : String)
    (r : Except PyError (List (List α))) : List (Event α) × Option PyError :=
  match r with
  | Except.error e => ([Event.createEngine], some e)
  | Except.ok batches =>
      (Event.createEngine ::
        (loadEvents target_table batches ++ [Event.printFinished target_table]),
       none)

/-- `run` (pipeline.py lines 109-168), restricted to the pipeline logic in
scope: hint selection from `--taxi-type`, format detection/validation
(raising `UsageError` before `create_engine`, hence with an empty effect
trace), hint suppression for parquet (lines 144-147), then engine
creation, chunked read and the load loop.  Returns the event trace
together with the raised exception, if any. -/
def run {α : Type} (decode_csv : Option Dtype → Option ParseDates → List α)
    (decode_parquet : List α) (url : String) (target_table : String)
    (chunksize : Int) (file_format : Option String) (taxi_type : Option String) :
    List (Event α) × Option PyError :=
  let hints0 := taxiHints taxi_type
  match resolveFormat file_format url with
  | none =>
      ([], some (PyError.usageError
        "Cannot detect format from URL. Please specify --format (csv or parquet)"))
  | some fmt =>
      let hints := if fmt = "parquet" then (none, none) else hints0
      runLoad target_table
        (read_data_chunked decode_csv decode_parquet (some fmt) chunksize
          hints.1 hints.2)

/-- The batches a trace appends to the table, in order. -/
def appendedBatches {α : Type} (evs : List (Event α)) : List (List α) :=
  evs.filterMap (fun e => match e with | Event.append _ b => some b | _ => none)

/-- The per-batch record counts a trace reports ("Inserted: N" lines). -/
def reportedCounts {α : Type} (evs : List (Event α)) : List Nat :=
  evs.filterMap (fun e => match e with | Event.printInserted n => some n | _ => none)

/-- How many table-creation operations a trace performs. -/
def createCount {α : Type} (evs : List (Event α)) : Nat :=
  (evs.filter (fun e => match e with | Event.createTable _ _ => true | _ => false)).length

/-- The record stream the resolved format decodes the source to:
`pd.read_csv` with the given hints for csv, `pd.read_parquet` for parquet. -/
def decodedRows {α : Type} (decode_csv : Option Dtype → Option ParseDates → List α)
    (decode_parquet : List α) (use_dtype : Option Dtype)
    (use_parse_dates : Option ParseDates) (fmt : String) : List α :=
  if fmt = "csv" then decode_csv use_dtype use_parse_dates else decode_parquet

/-- Ceiling division of naturals, `⌈r / c⌉`. -/
def ceilDiv (r c : Nat) : Nat := (r + c - 1) / c

/-! ### Helper lemmas -/

/-- Two suffixes of one list are comparable; if neither of `s`, `t` is a
suffix of the other, they cannot both be suffixes of `u`. -/
theorem not_suffix_of_incomparable {s t u : List Char} (hs : s <:+ u)
    (h1 : ¬ t <:+ s) (h2 : ¬ s <:+ t) : ¬ t <:+ u :=
  fun ht => (List.suffix_or_suffix_of_suffix ht hs).elim h1 h2

/-- `ceilDiv` characterised: `c * ceilDiv r c` is the least multiple of
`c` that is at least `r`. -/
theorem ceilDiv_bounds (r c : Nat) (hc : 1 ≤ c) :
    r ≤ c * ceilDiv r c ∧ c * ceilDiv r c < r + c := by
  unfold ceilDiv
  have h3 := Nat.div_add_mod (r + c - 1) c
  have h4 : (r + c - 1) % c < c := Nat.mod_lt _ (by omega)
  omega

/-- One step of `ceilDiv` with positive numerator. -/
theorem ceilDiv_succ_sub (k c : Nat) :
    ceilDiv (k - c) (c + 1) + 1 = ceilDiv (k + 1) (c + 1) := by
  unfold ceilDiv
  have hr : k + 1 + (c + 1) - 1 = k + (c + 1) := by omega
  rw [hr, Nat.add_div_right _ (Nat.succ_pos c)]
  rcases le_or_lt c k with h | h
  · have h2 : k - c + (c + 1) - 1 = k := by omega
    rw [h2]
  · have h2 : k - c + (c + 1) - 1 = c := by omega
    rw [h2, Nat.div_eq_of_lt (by omega), Nat.div_eq_of_lt (by omega)]

theorem ceilDiv_zero_left (c : Nat) : ceilDiv 0 (c + 1) = 0 := by
  unfold ceilDiv
  rw [Nat.div_eq_of_lt (by omega)]

theorem chunkList_nil {α : Type} (c : Nat) : chunkList c ([] : List α) = [] := by
  rw [chunkList]

theorem chunkList_cons {α : Type} (c : Nat) (x : α) (xs : List α) :
    chunkList (c + 1) (x :: xs) = (x :: xs.take c) :: chunkList (c + 1) (xs.drop c) := by
  rw [chunkList]

theorem chunkList_length {α : Type} (c : Nat) (l : List α) :
    (chunkList (c + 1) l).length = ceilDiv l.length (c + 1) := by
  suffices h : ∀ (n : Nat) (l : List α), l.length ≤ n →
      (chunkList (c + 1) l).length = ceilDiv l.length (c + 1) by
    exact h l.length l le_rfl
  intro n
  induction n with
  | zero =>
      intro l hl
      have hnil : l = [] := List.length_eq_zero.mp (Nat.le_zero.mp hl)
      subst hnil
      simp [chunkList_nil, ceilDiv_zero_left]
  | succ n ih =>
      intro l hl
      cases l with
      | nil => simp [chunkList_nil, ceilDiv_zero_left]
      | cons x xs =>
          have hxs : xs.length ≤ n := by
            simp only [List.length_cons] at hl
            omega
          rw [chunkList_cons, List.length_cons, List.length_cons,
            ih (xs.drop c) (by simp only [List.length_drop]; omega),
            List.length_drop]
          exact ceilDiv_succ_sub xs.length c

theorem chunkList_le {α : Type} (c : Nat) (l : List α) :
    ∀ b ∈ chunkList (c + 1) l, b.length ≤ c + 1 := by
  suffices h : ∀ (n : Nat) (l : List α), l.length ≤ n →
      ∀ b ∈ chunkList (c + 1) l, b.length ≤ c + 1 by
    exact h l.length l le_rfl
  intro n
  induction n with
  | zero =>
      intro l hl b hb
      have hnil : l = [] := List.length_eq_zero.mp (Nat.le_zero.mp hl)
      subst hnil
      simp [chunkList_nil] at hb
  | succ n ih =>
      intro l hl b hb
      cases l with
      | nil => simp [chunkList_nil] at hb
      | cons x xs =>
          have hxs : xs.length ≤ n := by
            simp only [List.length_cons] at hl
            omega
          rw [chunkList_cons] at hb
          rcases List.mem_cons.mp hb with h | h
          · subst h
            simp only [List.length_cons, List.length_take]
            omega
          · exact ih (xs.drop c) (by simp only [List.length_drop]; omega) b h

theorem chunkList_sum {α : Type} (c : Nat) (l : List α) :
    ((chunkList (c + 1) l).map List.length).sum = l.length := by
  suffices h : ∀ (n : Nat) (l : List α), l.length ≤ n →
      ((chunkList (c + 1) l).map List.length).sum = l.length by
    exact h l.length l le_rfl
  intro n
  induction n with
  | zero =>
      intro l hl
      have hnil : l = [] := List.length_eq_zero.mp (Nat.le_zero.mp hl)
      subst hnil
      simp [chunkList_nil]
  | succ n ih =>
      intro l hl
      cases l with
      | nil => simp [chunkList_nil]
      | cons x xs =>
          have hxs : xs.length ≤ n := by
            simp only [List.length_cons] at hl
            omega
          rw [chunkList_cons, List.map_cons, List.sum_cons,
            ih (xs.drop c) (by simp only [List.length_drop]; omega)]
          simp only [List.length_cons, List.length_take, List.length_drop]
          omega

theorem chunkList_flatten {α : Type} (c : Nat) (l : List α) :
    (chunkList (c + 1) l).flatten = l := by
  suffices h : ∀ (n : Nat) (l : List α), l.length ≤ n →
      (chunkList (c + 1) l).flatten = l by
    exact h l.length l le_rfl
  intro n
  induction n with
  | zero =>
      intro l hl
      have hnil : l = [] := List.length_eq_zero.mp (Nat.le_zero.mp hl)
      subst hnil
      simp [chunkList_nil]
  | succ n ih =>
      intro l hl
      cases l with
      | nil => simp [chunkList_nil]
      | cons x xs =>
          have hxs : xs.length ≤ n := by
            simp only [List.length_cons] at hl
            omega
          rw [chunkList_cons, List.flatten_cons,
            ih (xs.drop c) (by simp only [List.length_drop]; omega)]
          simp

theorem pyRangeCount_pos (stp : Int) (hst : 1 ≤ stp) (n : Nat) :
    pyRangeCount 0 (n : Int) stp = ceilDiv n stp.toNat := by
  unfold pyRangeCount ceilDiv
  rw [if_pos (by omega : (0:Int) < stp)]
  have h1 : ((n : Int) - 0).toNat = n := by omega
  rw [h1]
  congr 1
  omega

theorem pyRangeCount_neg (stp : Int) (hst : stp < 0) (n : Nat) :
    pyRangeCount 0 (n : Int) stp = 0 := by
  unfold pyRangeCount
  rw [if_neg (by omega), if_pos hst]
  have h1 : ((0 : Int) - (n : Int)).toNat = 0 := by omega
  rw [h1]
  exact Nat.div_eq_of_lt (by omega)

theorem pySlice_nonneg {α : Type} (l : List α) (a b : Int) (ha : 0 ≤ a) (hb : 0 ≤ b) :
    pySlice l a b = (l.take b.toNat).drop a.toNat := by
  simp only [pySlice]
  rw [if_neg (by omega : ¬ b < 0), if_neg (by omega : ¬ a < 0)]
  have hbt : (min b (l.length : Int)).toNat = min b.toNat l.length := by omega
  have hat : (min a (l.length : Int)).toNat = min a.toNat l.length := by omega
  rw [hbt, hat, List.take_eq_take.mpr (by omega : min (min b.toNat l.length) l.length
      = min b.toNat l.length)]
  rcases le_or_lt a.toNat l.length with h | h
  · rw [min_eq_left h]
  · have h1 : (l.take b.toNat).length ≤ l.length := by
      simp only [List.length_take]; omega
    have h2 : (l.take b.toNat).length ≤ a.toNat := by
      simp only [List.length_take]; omega
    rw [min_eq_right h.le, List.drop_eq_nil_of_le h1, List.drop_eq_nil_of_le h2]

theorem pySlice_zero {α : Type} (l : List α) (b : Int) (hb : 0 ≤ b) :
    pySlice l 0 b = l.take b.toNat := by
  rw [pySlice_nonneg _ _ _ le_rfl hb]
  simp

theorem pySlice_add_drop {α : Type} (l : List α) (m : Nat) (a b : Int)
    (ha : 0 ≤ a) (hb : 0 ≤ b) :
    pySlice l (a + (m : Int)) (b + (m : Int)) = pySlice (l.drop m) a b := by
  rw [pySlice_nonneg _ _ _ (by omega) (by omega), pySlice_nonneg _ _ _ ha hb]
  have h1 : (a + (m : Int)).toNat = a.toNat + m := by omega
  have h2 : (b + (m : Int)).toNat = b.toNat + m := by omega
  rw [h1, h2, List.take_drop, List.drop_drop, Nat.add_comm m b.toNat,
    Nat.add_comm m a.toNat]

theorem range_map_succ_shift {β : Type} (D : Nat) (f : Nat → β) :
    (List.range (D + 1)).map f = f 0 :: (List.range D).map (fun k => f (k + 1)) := by
  rw [List.range_succ_eq_map, List.map_cons, List.map_map]
  exact congrArg _ (List.map_congr_left (fun a _ => rfl))

/-- The parquet slicing loop produces exactly the `chunksize`-chunks of the
decoded table: `range`-driven slicing coincides with sequential chunking. -/
theorem parquet_chunks_eq_chunkList {α : Type} (c : Int) (hc : 1 ≤ c) (df : List α) :
    parquet_chunks df c = chunkList c.toNat df := by
  obtain ⟨c', hc'⟩ : ∃ k, c.toNat = k + 1 := ⟨c.toNat - 1, by omega⟩
  have hcc : c = ((c' + 1 : Nat) : Int) := by omega
  suffices h : ∀ (n : Nat) (df : List α), df.length ≤ n →
      parquet_chunks df c = chunkList c.toNat df from h df.length df le_rfl
  intro n
  induction n with
  | zero =>
      intro df hdf
      have hnil : df = [] := List.length_eq_zero.mp (Nat.le_zero.mp hdf)
      subst hnil
      unfold parquet_chunks pyRange
      rw [pyRangeCount_pos c hc, List.length_nil, hc', ceilDiv_zero_left,
        List.range_zero, List.map_nil, List.map_nil, chunkList_nil]
  | succ n ih =>
      intro df hdf
      cases df with
      | nil =>
          unfold parquet_chunks pyRange
          rw [pyRangeCount_pos c hc, List.length_nil, hc', ceilDiv_zero_left,
            List.range_zero, List.map_nil, List.map_nil, chunkList_nil]
      | cons x xs =>
          have hxs : xs.length ≤ n := by
            simp only [List.length_cons] at hdf
            omega
          unfold parquet_chunks pyRange
          rw [List.map_map, pyRangeCount_pos c hc, List.length_cons, hc',
            ← ceilDiv_succ_sub xs.length c', range_map_succ_shift, chunkList_cons]
          congr 1
          · show pySlice (x :: xs) (0 + c * ((0 : Nat) : Int))
                ((0 + c * ((0 : Nat) : Int)) + c) = x :: xs.take c'
            rw [Nat.cast_zero, mul_zero, add_zero, zero_add,
              pySlice_zero _ _ (by omega), hc', List.take_succ_cons]
          · have ih' := ih (xs.drop c') (by simp only [List.length_drop]; omega)
            rw [hc'] at ih'
            rw [← ih']
            unfold parquet_chunks pyRange
            rw [List.map_map, pyRangeCount_pos c hc, List.length_drop, hc']
            apply List.map_congr_left
            intro k _
            show pySlice (x :: xs) (0 + c * ((k + 1 : Nat) : Int))
                ((0 + c * ((k + 1 : Nat) : Int)) + c)
              = pySlice (xs.drop c') (0 + c * (k : Int)) ((0 + c * (k : Int)) + c)
            have hk1 : (0 : Int) + c * ((k + 1 : Nat) : Int)
                = (0 + c * (k : Int)) + ((c' + 1 : Nat) : Int) := by
              rw [hcc]; push_cast; ring
            have hk2 : (0 : Int) + c * (k : Int) + ((c' + 1 : Nat) : Int) + c
                = ((0 + c * (k : Int)) + c) + ((c' + 1 : Nat) : Int) := by
              ring
            rw [hk1, hk2, pySlice_add_drop (x :: xs) (c' + 1) _ _
              (by have := mul_nonneg (by omega : (0:Int) ≤ c) (by omega : (0:Int) ≤ (k:Int))
                  omega)
              (by have := mul_nonneg (by omega : (0:Int) ≤ c) (by omega : (0:Int) ≤ (k:Int))
                  omega),
              List.drop_succ_cons]

/-! ### C4 — format detection -/

/-- C4: `detect_format` inspects the locator's suffix case-insensitively:
it returns parquet for every locator whose lowercased form ends in
".parquet", csv for every locator whose lowercased form ends in ".csv" or
".csv.gz", and `none` for every other locator; in particular the literal
suffixes ".parquet", ".csv" and ".csv.gz" are recognised. -/
theorem detect_format_correct (url : String) :
    (".parquet".toList <:+ url.toList.map Char.toLower →
        detect_format url = some "parquet")
  ∧ ((".csv".toList <:+ url.toList.map Char.toLower ∨
        ".csv.gz".toList <:+ url.toList.map Char.toLower) →
        detect_format url = some "csv")
  ∧ (¬ ".parquet".toList <:+ url.toList.map Char.toLower →
     ¬ ".csv".toList <:+ url.toList.map Char.toLower →
     ¬ ".csv.gz".toList <:+ url.toList.map Char.toLower →
        detect_format url = none)
  ∧ (".parquet".toList <:+ url.toList → detect_format url = some "parquet")
  ∧ (".csv".toList <:+ url.toList → detect_format url = some "csv")
  ∧ (".csv.gz".toList <:+ url.toList → detect_format url = some "csv") := by
  have hlow : ∀ s : List Char, s.map Char.toLower = s → s <:+ url.toList →
      s <:+ url.toList.map Char.toLower := by
    intro s hss hsu
    have hmap := List.IsSuffix.map Char.toLower hsu
    rwa [hss] at hmap
  have hpar : ".parquet".toList <:+ url.toList.map Char.toLower →
      detect_format url = some "parquet" := by
    intro h
    simp only [detect_format]
    rw [if_pos h]
  have hcsv : (".csv".toList <:+ url.toList.map Char.toLower ∨
      ".csv.gz".toList <:+ url.toList.map Char.toLower) →
      detect_format url = some "csv" := by
    intro h
    have hnp : ¬ ".parquet".toList <:+ url.toList.map Char.toLower := by
      rcases h with h0 | h0
      · exact not_suffix_of_incomparable h0 (by decide) (by decide)
      · exact not_suffix_of_incomparable h0 (by decide) (by decide)
    simp only [detect_format]
    rw [if_neg hnp, if_pos h.symm]
  refine ⟨hpar, hcsv, ?_, ?_, ?_, ?_⟩
  · intro h1 h2 h3
    simp only [detect_format]
    rw [if_neg h1, if_neg (fun h => h.elim h3 h2)]
  · intro h
    exact hpar (hlow _ (by decide) h)
  · intro h
    exact hcsv (Or.inl (hlow _ (by decide) h))
  · intro h
    exact hcsv (Or.inr (hlow _ (by decide) h))

/-- C4 witness: a mixed-case parquet locator, a mixed-case compressed csv
locator, and an unrecognised locator, each at a concrete input. -/
theorem detect_format_correct_witness :
    detect_format "trips.PARQUET" = some "parquet"
  ∧ detect_format "trips.CSV.GZ" = some "csv"
  ∧ detect_format "trips.txt" = none := by
  refine ⟨?_, ?_, ?_⟩
  · exact (detect_format_correct "trips.PARQUET").1 (by decide)
  · exact (detect_format_correct "trips.CSV.GZ").2.1 (Or.inr (by decide))
  · exact (detect_format_correct "trips.txt").2.2.1 (by decide) (by decide) (by decide)

/-! ### Load-loop and run helpers -/

theorem loadEvents_tail {α : Type} (tbl : String) (bs : List (List α))
    (evs : List (Event α)) :
    (bs.foldl (loadStep tbl) (evs, false)).1
      = evs ++ (bs.map (fun c => [Event.append tbl c, Event.printInserted c.length])).flatten := by
  induction bs generalizing evs with
  | nil => simp
  | cons b bs ih =>
      simp only [List.foldl_cons, loadStep]
      rw [if_neg (by simp)]
      rw [ih]
      simp

theorem loadEvents_eq_spec {α : Type} (tbl : String) (bs : List (List α)) :
    loadEvents tbl bs = loadEventsSpec tbl bs := by
  cases bs with
  | nil => rfl
  | cons b bs =>
      unfold loadEvents loadEventsSpec
      simp only [List.foldl_cons, loadStep, if_true]
      rw [loadEvents_tail]
      simp

theorem appendedBatches_tail {α : Type} (tbl : String) (bs : List (List α)) :
    appendedBatches
      ((bs.map (fun c => [Event.append tbl c, Event.printInserted c.length])).flatten) = bs := by
  induction bs with
  | nil => rfl
  | cons b bs ih =>
      simp only [appendedBatches] at ih ⊢
      simp only [List.map_cons, List.flatten_cons, List.filterMap_append,
        List.filterMap_cons, ih]
      rfl

theorem reportedCounts_tail {α : Type} (tbl : String) (bs : List (List α)) :
    reportedCounts
      ((bs.map (fun c => [Event.append tbl c, Event.printInserted c.length])).flatten)
      = bs.map List.length := by
  induction bs with
  | nil => rfl
  | cons b bs ih =>
      simp only [reportedCounts] at ih ⊢
      simp only [List.map_cons, List.flatten_cons, List.filterMap_append,
        List.filterMap_cons, ih]
      rfl

theorem createCount_tail {α : Type} (tbl : String) (bs : List (List α)) :
    createCount
      ((bs.map (fun c => [Event.append tbl c, Event.printInserted c.length])).flatten) = 0 := by
  induction bs with
  | nil => rfl
  | cons b bs ih =>
      simp only [createCount] at ih ⊢
      simp only [List.map_cons, List.flatten_cons, List.filter_append,
        List.filter_cons, List.length_append, ih]
      rfl

theorem appendedBatches_spec {α : Type} (tbl : String) (bs : List (List α)) :
    appendedBatches (loadEventsSpec tbl bs) = bs := by
  cases bs with
  | nil => rfl
  | cons b bs =>
      unfold loadEventsSpec
      have h := appendedBatches_tail tbl (b :: bs)
      simp only [appendedBatches, List.filterMap_cons] at h ⊢
      exact h

theorem reportedCounts_spec {α : Type} (tbl : String) (bs : List (List α)) :
    reportedCounts (loadEventsSpec tbl bs) = bs.map List.length := by
  cases bs with
  | nil => rfl
  | cons b bs =>
      unfold loadEventsSpec
      have h := reportedCounts_tail tbl (b :: bs)
      simp only [reportedCounts, List.filterMap_cons] at h ⊢
      exact h

theorem createCount_spec {α : Type} (tbl : String) (bs : List (List α)) :
    createCount (loadEventsSpec tbl bs) = if bs.isEmpty then 0 else 1 := by
  cases bs with
  | nil => rfl
  | cons b bs =>
      have h := createCount_tail tbl (b :: bs)
      unfold loadEventsSpec
      simp only [createCount] at h ⊢
      rw [List.filter_cons, if_pos rfl, List.length_cons, h]
      rfl

theorem createCount_wrap {α : Type} (tbl : String) (evs : List (Event α)) :
    createCount (Event.createEngine :: (evs ++ [Event.printFinished tbl]))
      = createCount evs := by
  simp [createCount, List.filter_append, List.filter_cons]

theorem appendedBatches_wrap {α : Type} (tbl : String) (evs : List (Event α)) :
    appendedBatches (Event.createEngine :: (evs ++ [Event.printFinished tbl]))
      = appendedBatches evs := by
  simp [appendedBatches, List.filterMap_append, List.filterMap_cons]

theorem reportedCounts_wrap {α : Type} (tbl : String) (evs : List (Event α)) :
    reportedCounts (Event.createEngine :: (evs ++ [Event.printFinished tbl]))
      = reportedCounts evs := by
  simp [reportedCounts, List.filterMap_append, List.filterMap_cons]

/-- A run whose resolution fails raises the usage error with no effects. -/
theorem run_unresolved {α : Type} (dc : Option Dtype → Option ParseDates → List α)
    (dp : List α) (url tbl : String) (c : Int) (ff tt : Option String)
    (hres : resolveFormat ff url = none) :
    run dc dp url tbl c ff tt
      = ([], some (PyError.usageError
          "Cannot detect format from URL. Please specify --format (csv or parquet)")) := by
  unfold run
  rw [hres]

/-- A run whose resolution yields `fmt` creates the engine and performs the
load loop on the reader's outcome, with the hints the source computes. -/
theorem run_resolved {α : Type} (dc : Option Dtype → Option ParseDates → List α)
    (dp : List α) (url tbl : String) (c : Int) (ff tt : Option String) (fmt : String)
    (hres : resolveFormat ff url = some fmt) :
    run dc dp url tbl c ff tt
      = runLoad tbl (read_data_chunked dc dp (some fmt) c
          (if fmt = "parquet" then (none, none) else taxiHints tt).1
          (if fmt = "parquet" then (none, none) else taxiHints tt).2) := by
  unfold run
  rw [hres]

theorem runLoad_cases {α : Type} (tbl : String) (r : Except PyError (List (List α))) :
    (∃ e, r = Except.error e ∧ runLoad tbl r = ([Event.createEngine], some e))
  ∨ (∃ bs, r = Except.ok bs ∧ runLoad tbl r
      = (Event.createEngine :: (loadEvents tbl bs ++ [Event.printFinished tbl]), none)) := by
  cases r with
  | error e => exact Or.inl ⟨e, rfl, rfl⟩
  | ok bs => exact Or.inr ⟨bs, rfl, rfl⟩

/-- Every run falls in one of three shapes: usage error with empty trace,
reader error after engine creation, or a full load over some batch list. -/
theorem run_cases {α : Type} (dc : Option Dtype → Option ParseDates → List α)
    (dp : List α) (url tbl : String) (c : Int) (ff tt : Option String) :
    (∃ e, run dc dp url tbl c ff tt = ([], some e))
  ∨ (∃ e, run dc dp url tbl c ff tt = ([Event.createEngine], some e))
  ∨ (∃ bs, run dc dp url tbl c ff tt
      = (Event.createEngine :: (loadEvents tbl bs ++ [Event.printFinished tbl]), none)) := by
  cases hres : resolveFormat ff url with
  | none => exact Or.inl ⟨_, run_unresolved dc dp url tbl c ff tt hres⟩
  | some fmt =>
      have hr := run_resolved dc dp url tbl c ff tt fmt hres
      rcases runLoad_cases tbl (read_data_chunked dc dp (some fmt) c
          (if fmt = "parquet" then (none, none) else taxiHints tt).1
          (if fmt = "parquet" then (none, none) else taxiHints tt).2) with
        ⟨e, _, he⟩ | ⟨bs, _, hb⟩
      · exact Or.inr (Or.inl ⟨e, by rw [hr, he]⟩)
      · exact Or.inr (Or.inr ⟨bs, by rw [hr, hb]⟩)

/-- The reader succeeds on a recognised format with chunk size at least 1,
yielding exactly the sequential chunks of the decoded record stream. -/
theorem read_data_chunked_ok {α : Type} (dc : Option Dtype → Option ParseDates → List α)
    (dp : List α) (ud : Option Dtype) (up : Option ParseDates) (fmt : String) (c : Int)
    (hfmt : fmt = "csv" ∨ fmt = "parquet") (hc : 1 ≤ c) :
    read_data_chunked dc dp (some fmt) c ud up
      = Except.ok (chunkList c.toNat (decodedRows dc dp ud up fmt)) := by
  rcases hfmt with h | h <;> subst h
  · have h1 : ¬ c < 1 := by omega
    simp [read_data_chunked, decodedRows, h1]
  · have h2 : ¬ c = 0 := by omega
    simp [read_data_chunked, decodedRows, h2, parquet_chunks_eq_chunkList c hc]

/-! ### C1 — batch count, batch bound, record conservation -/

/-- C1: for every source with `R` records and every chunk size `C ≥ 1`,
`read_data_chunked` yields exactly `⌈R/C⌉` batches (the two bounds on
`C * count` pin the batch count down as the ceiling of `R/C`), each batch
has at most `C` records, and the batch record counts sum to `R`; this
holds on the delimited-text path and on the columnar-binary slicing loop
alike, the final batch being the only one allowed to be shorter. -/
theorem read_data_chunked_batch_counts {α : Type}
    (dc : Option Dtype → Option ParseDates → List α) (dp : List α)
    (ud : Option Dtype) (up : Option ParseDates) (fmt : String) (c : Int)
    (hfmt : fmt = "csv" ∨ fmt = "parquet") (hc : 1 ≤ c) :
    read_data_chunked dc dp (some fmt) c ud up
      = Except.ok (chunkList c.toNat (decodedRows dc dp ud up fmt))
  ∧ (chunkList c.toNat (decodedRows dc dp ud up fmt)).length
      = ceilDiv (decodedRows dc dp ud up fmt).length c.toNat
  ∧ (∀ b ∈ chunkList c.toNat (decodedRows dc dp ud up fmt), b.length ≤ c.toNat)
  ∧ ((chunkList c.toNat (decodedRows dc dp ud up fmt)).map List.length).sum
      = (decodedRows dc dp ud up fmt).length
  ∧ (decodedRows dc dp ud up fmt).length
      ≤ c.toNat * ceilDiv (decodedRows dc dp ud up fmt).length c.toNat
  ∧ c.toNat * ceilDiv (decodedRows dc dp ud up fmt).length c.toNat
      < (decodedRows dc dp ud up fmt).length + c.toNat := by
  obtain ⟨c', hc'⟩ : ∃ k, c.toNat = k + 1 := ⟨c.toNat - 1, by omega⟩
  refine ⟨read_data_chunked_ok dc dp ud up fmt c hfmt hc, ?_, ?_, ?_, ?_, ?_⟩ <;> rw [hc']
  · exact chunkList_length c' _
  · exact chunkList_le c' _
  · exact chunkList_sum c' _
  · exact (ceilDiv_bounds _ (c' + 1) (by omega)).1
  · exact (ceilDiv_bounds _ (c' + 1) (by omega)).2

/-- C1 witness: a 5-record source with chunk size 2 — the hypotheses hold
at `fmt = "csv"`, `c = 2`, and the conclusion is the instance of the
theorem there. -/
theorem read_data_chunked_batch_counts_witness :
    read_data_chunked (fun _ _ => ([5, 6, 7, 8, 9] : List Nat)) [] (some "csv") 2 none none
      = Except.ok (chunkList (2 : Int).toNat
          (decodedRows (fun _ _ => ([5, 6, 7, 8, 9] : List Nat)) [] none none "csv"))
  ∧ (chunkList (2 : Int).toNat
        (decodedRows (fun _ _ => ([5, 6, 7, 8, 9] : List Nat)) [] none none "csv")).length
      = ceilDiv (decodedRows (fun _ _ => ([5, 6, 7, 8, 9] : List Nat)) [] none none "csv").length
          (2 : Int).toNat :=
  ⟨(read_data_chunked_batch_counts (fun _ _ => ([5, 6, 7, 8, 9] : List Nat)) [] none none
      "csv" 2 (Or.inl rfl) (by omega)).1,
   (read_data_chunked_batch_counts (fun _ _ => ([5, 6, 7, 8, 9] : List Nat)) [] none none
      "csv" 2 (Or.inl rfl) (by omega)).2.1⟩

/-! ### C6 — columnar split-then-concatenate round trip -/

/-- C6: for the columnar-binary format and any chunk size `C ≥ 1`, the
yielded batches are the contiguous in-order row-slices of the decoded
table — they equal its sequential chunks, and concatenating them in yield
order reconstructs the decoded table exactly. -/
theorem parquet_roundtrip {α : Type}
    (dc : Option Dtype → Option ParseDates → List α) (dp : List α)
    (ud : Option Dtype) (up : Option ParseDates) (c : Int) (hc : 1 ≤ c) :
    read_data_chunked dc dp (some "parquet") c ud up
      = Except.ok (parquet_chunks dp c)
  ∧ parquet_chunks dp c = chunkList c.toNat dp
  ∧ (parquet_chunks dp c).flatten = dp := by
  obtain ⟨c', hc'⟩ : ∃ k, c.toNat = k + 1 := ⟨c.toNat - 1, by omega⟩
  have hb := parquet_chunks_eq_chunkList c hc dp
  refine ⟨?_, hb, ?_⟩
  · have h2 : ¬ c = 0 := by omega
    simp [read_data_chunked, h2]
  · rw [hb, hc']
    exact chunkList_flatten c' dp

/-- C6 witness: the 5-record table split with chunk size 2; the slices and
their concatenation evaluate concretely. -/
theorem parquet_roundtrip_witness :
    read_data_chunked (fun _ _ => ([] : List Nat)) [1, 2, 3, 4, 5] (some "parquet") 2 none none
      = Except.ok (parquet_chunks [1, 2, 3, 4, 5] 2)
  ∧ (parquet_chunks ([1, 2, 3, 4, 5] : List Nat) 2).flatten = [1, 2, 3, 4, 5]
  ∧ parquet_chunks ([1, 2, 3, 4, 5] : List Nat) 2 = [[1, 2], [3, 4], [5]] :=
  ⟨(parquet_roundtrip (fun _ _ => ([] : List Nat)) [1, 2, 3, 4, 5] none none 2 (by omega)).1,
   (parquet_roundtrip (fun _ _ => ([] : List Nat)) [1, 2, 3, 4, 5] none none 2 (by omega)).2.2,
   by decide⟩

/-! ### C9 — unsupported format fails fast -/

/-- C9: every format value outside the known set reaching the reader —
`None` or any string other than "csv" and "parquet" — makes the reader
fail fast with the unsupported-format error, yielding no batches. -/
theorem read_data_chunked_unsupported {α : Type}
    (dc : Option Dtype → Option ParseDates → List α) (dp : List α)
    (ud : Option Dtype) (up : Option ParseDates) (ff : Option String) (c : Int)
    (h1 : ff ≠ some "csv") (h2 : ff ≠ some "parquet") :
    read_data_chunked dc dp ff c ud up
      = Except.error (PyError.valueError ("Unsupported format: " ++ pyFormatArg ff))
  ∧ ∀ bs, read_data_chunked dc dp ff c ud up ≠ Except.ok bs := by
  have hmain : read_data_chunked dc dp ff c ud up
      = Except.error (PyError.valueError ("Unsupported format: " ++ pyFormatArg ff)) := by
    simp only [read_data_chunked]
    rw [if_neg h1, if_neg h2]
  exact ⟨hmain, fun bs h => by rw [hmain] at h; exact Except.noConfusion h⟩

/-- C9 witness: the format value "json" (outside the known set) at a
concrete reader call. -/
theorem read_data_chunked_unsupported_witness :
    read_data_chunked (fun _ _ => ([] : List Nat)) [] (some "json") 100000 none none
      = Except.error
          (PyError.valueError ("Unsupported format: " ++ pyFormatArg (some "json"))) :=
  (read_data_chunked_unsupported (fun _ _ => ([] : List Nat)) [] none none (some "json")
    100000 (by decide) (by decide)).1

/-! ### C10 — negative chunk size drops all records silently -/

/-- C10: on the columnar-binary path a negative chunk size makes the
`range` loop empty, so for a non-empty source every record is silently
dropped — the reader returns zero batches and raises no error; the C1
guarantees are therefore conditional on a chunk size of at least 1. -/
theorem parquet_negative_chunksize {α : Type}
    (dc : Option Dtype → Option ParseDates → List α) (dp : List α)
    (ud : Option Dtype) (up : Option ParseDates) (c : Int)
    (hc : c < 0) (hR : 0 < dp.length) :
    read_data_chunked dc dp (some "parquet") c ud up = Except.ok []
  ∧ parquet_chunks dp c = []
  ∧ 0 < dp.length := by
  have hp : parquet_chunks dp c = [] := by
    unfold parquet_chunks pyRange
    rw [pyRangeCount_neg c hc, List.range_zero, List.map_nil, List.map_nil]
  have h2 : ¬ c = 0 := by omega
  refine ⟨?_, hp, hR⟩
  simp [read_data_chunked, h2, hp]

/-- C10 witness: a 3-record table with chunk size -2 yields zero batches. -/
theorem parquet_negative_chunksize_witness :
    read_data_chunked (fun _ _ => ([] : List Nat)) [1, 2, 3] (some "parquet") (-2) none none
      = Except.ok [] :=
  (parquet_negative_chunksize (fun _ _ => ([] : List Nat)) [1, 2, 3] none none (-2)
    (by omega) (by decide)).1

/-! ### C2 — table created exactly once, every batch appended -/

/-- C2: the load loop issues the table creation exactly once, on receiving
the first batch — it is the very first operation, carrying the first
batch's schema, before any append — and appends every batch of the
sequence, the first included, in order; an empty sequence creates nothing,
and no `run` ever performs more than one table creation (once the loop is
past its first iteration the `first` flag stays false). -/
theorem run_creates_table_once {α : Type} (tbl : String) (bs : List (List α))
    (dc : Option Dtype → Option ParseDates → List α) (dp : List α)
    (url : String) (c : Int) (ff tt : Option String) :
    loadEvents tbl bs = loadEventsSpec tbl bs
  ∧ createCount (loadEvents tbl bs) = (if bs.isEmpty then 0 else 1)
  ∧ appendedBatches (loadEvents tbl bs) = bs
  ∧ (∀ b rest, bs = b :: rest →
      loadEvents tbl bs = Event.createTable tbl b ::
        ((b :: rest).map (fun ch => [Event.append tbl ch, Event.printInserted ch.length])).flatten)
  ∧ createCount (run dc dp url tbl c ff tt).1 ≤ 1 := by
  refine ⟨loadEvents_eq_spec tbl bs, ?_, ?_, ?_, ?_⟩
  · rw [loadEvents_eq_spec, createCount_spec]
  · rw [loadEvents_eq_spec, appendedBatches_spec]
  · intro b rest hbs
    subst hbs
    rw [loadEvents_eq_spec]
    rfl
  · rcases run_cases dc dp url tbl c ff tt with ⟨e, he⟩ | ⟨e, he⟩ | ⟨bs', hb⟩
    · rw [he]
      simp [createCount]
    · rw [he]
      simp [createCount]
    · rw [hb]
      simp only [createCount_wrap, loadEvents_eq_spec, createCount_spec]
      split <;> omega

/-- C2 witness: a two-batch sequence — one creation from the first batch,
then both batches appended. -/
theorem run_creates_table_once_witness :
    loadEvents "trips" ([[1], [2, 3]] : List (List Nat))
      = loadEventsSpec "trips" ([[1], [2, 3]] : List (List Nat))
  ∧ createCount (loadEvents "trips" ([[1], [2, 3]] : List (List Nat))) = 1
  ∧ appendedBatches (loadEvents "trips" ([[1], [2, 3]] : List (List Nat))) = [[1], [2, 3]]
  ∧ loadEvents "trips" ([[1], [2, 3]] : List (List Nat))
      = [Event.createTable "trips" [1], Event.append "trips" [1], Event.printInserted 1,
         Event.append "trips" [2, 3], Event.printInserted 2] := by
  have h := run_creates_table_once "trips" ([[1], [2, 3]] : List (List Nat))
    (fun _ _ => []) [] "u.parquet" 2 none none
  exact ⟨h.1, by rw [h.2.1]; rfl, h.2.2.1, by rw [h.2.2.2.1 [1] [[2, 3]] rfl]; rfl⟩

/-! ### C3 — what the load loop reports -/

/-- C3 counterexample: a 3-record parquet source loaded with chunk size 2
writes batches of 2 and 1 records; the run reports the counts 2 and 1 and
nothing else — the total 3 is never reported, so the claim that the total
number of records written is reported fails as stated. -/
theorem run_total_never_reported_counterexample :
    ((appendedBatches (run (fun _ _ => ([] : List Nat)) [10, 20, 30] "t.parquet" "trips" 2
        none none).1).map List.length).sum = 3
  ∧ reportedCounts (run (fun _ _ => ([] : List Nat)) [10, 20, 30] "t.parquet" "trips" 2
        none none).1 = [2, 1]
  ∧ ¬ (3 ∈ reportedCounts (run (fun _ _ => ([] : List Nat)) [10, 20, 30] "t.parquet" "trips" 2
        none none).1) := by
  decide

/-- C3 amended: after the batch sequence is exhausted the run prints the
completion message last; the total records written is reported only
per batch — the reported counts are exactly the batch lengths, and their
sum equals the total number of records appended. -/
theorem run_reports_per_batch_counts {α : Type} (tbl : String) (bs : List (List α))
    (dc : Option Dtype → Option ParseDates → List α) (dp : List α)
    (url : String) (c : Int) (ff tt : Option String) :
    reportedCounts (loadEvents tbl bs) = bs.map List.length
  ∧ (reportedCounts (loadEvents tbl bs)).sum
      = ((appendedBatches (loadEvents tbl bs)).map List.length).sum
  ∧ ((run dc dp url tbl c ff tt).2 = none →
      (run dc dp url tbl c ff tt).1.getLast? = some (Event.printFinished tbl)) := by
  refine ⟨?_, ?_, ?_⟩
  · rw [loadEvents_eq_spec, reportedCounts_spec]
  · rw [loadEvents_eq_spec, reportedCounts_spec, appendedBatches_spec]
  · intro hnone
    rcases run_cases dc dp url tbl c ff tt with ⟨e, he⟩ | ⟨e, he⟩ | ⟨bs', hb⟩
    · rw [he] at hnone
      exact Option.noConfusion hnone
    · rw [he] at hnone
      exact Option.noConfusion hnone
    · rw [hb]
      show (Event.createEngine :: (loadEvents tbl bs' ++ [Event.printFinished tbl])).getLast?
        = some (Event.printFinished tbl)
      rw [← List.cons_append, List.getLast?_concat]

/-- C3 amended witness: the concrete two-batch run — reported counts
`[2, 1]`, their sum 3 matching the records appended, completion printed
last. -/
theorem run_reports_per_batch_counts_witness :
    reportedCounts (loadEvents "trips" ([[10, 20], [30]] : List (List Nat)))
      = [2, 1]
  ∧ ((run (fun _ _ => ([] : List Nat)) [10, 20, 30] "t.parquet" "trips" 2 none none).2 = none →
      (run (fun _ _ => ([] : List Nat)) [10, 20, 30] "t.parquet" "trips" 2 none
        none).1.getLast? = some (Event.printFinished "trips")) := by
  have h := run_reports_per_batch_counts "trips" ([[10, 20], [30]] : List (List Nat))
    (fun _ _ => ([] : List Nat)) [10, 20, 30] "t.parquet" 2 none none
  exact ⟨by rw [h.1]; rfl, h.2.2⟩

/-! ### C5 — usage error surfaces before any I/O -/

/-- C5: for a locator with an unrecognized suffix and no format override,
`run` raises the usage error with an empty effect trace: no engine is
created, nothing is read, no table operation happens — the error surfaces
before any I/O. -/
theorem run_usage_error_before_io {α : Type}
    (dc : Option Dtype → Option ParseDates → List α) (dp : List α)
    (url tbl : String) (c : Int) (tt : Option String)
    (h : detect_format url = none) :
    run dc dp url tbl c none tt
      = ([], some (PyError.usageError
          "Cannot detect format from URL. Please specify --format (csv or parquet)")) ∧
    ¬ (Event.createEngine ∈ (run dc dp url tbl c none tt).1) := by
  have hmain := run_unresolved dc dp url tbl c none tt h
  refine ⟨hmain, ?_⟩
  rw [hmain]
  simp

/-- C5 witness: the locator "file.xyz" has an unrecognized suffix. -/
theorem run_usage_error_before_io_witness :
    run (fun _ _ => ([] : List Nat)) [] "file.xyz" "trips" 100000 none none
      = ([], some (PyError.usageError
          "Cannot detect format from URL. Please specify --format (csv or parquet)")) :=
  (run_usage_error_before_io (fun _ _ => ([] : List Nat)) [] "file.xyz" "trips" 100000 none
    (by decide)).1

/-! ### C7 — hints never applied to columnar-binary input -/

/-- C7: two runs over the same parquet source that differ only in the
taxi-type hint set produce identical outcomes — the same event trace
(hence the same batch sequence appended) and the same error, whether the
format was an explicit parquet override or was detected from the url. -/
theorem run_parquet_hint_invariance {α : Type}
    (dc : Option Dtype → Option ParseDates → List α) (dp : List α)
    (url tbl : String) (c : Int) (ff : Option String) (t1 t2 : Option String)
    (h : ff = some "parquet" ∨ (ff = none ∧ detect_format url = some "parquet")) :
    run dc dp url tbl c ff t1 = run dc dp url tbl c ff t2
  ∧ appendedBatches (run dc dp url tbl c ff t1).1
      = appendedBatches (run dc dp url tbl c ff t2).1 := by
  have hres : resolveFormat ff url = some "parquet" := by
    rcases h with h | ⟨h1, h2⟩
    · rw [h]; rfl
    · rw [h1]; exact h2
  have hmain : run dc dp url tbl c ff t1 = run dc dp url tbl c ff t2 := by
    rw [run_resolved dc dp url tbl c ff t1 "parquet" hres,
      run_resolved dc dp url tbl c ff t2 "parquet" hres]
    simp
  exact ⟨hmain, by rw [hmain]⟩

/-- C7 witness: yellow hints versus no hints over the same parquet source
produce the same run. -/
theorem run_parquet_hint_invariance_witness :
    run (fun _ _ => ([] : List Nat)) [1, 2, 3] "u.parquet" "trips" 2 (some "parquet")
      (some "yellow")
      = run (fun _ _ => ([] : List Nat)) [1, 2, 3] "u.parquet" "trips" 2 (some "parquet")
        none :=
  (run_parquet_hint_invariance (fun _ _ => ([] : List Nat)) [1, 2, 3] "u.parquet" "trips" 2
    (some "parquet") (some "yellow") none (Or.inl rfl)).1

/-! ### C8 — empty source: no table creation, total 0 -/

/-- C8: a 0-record source yields a zero-batch sequence, so the run
performs no table creation and no append — the destination table is never
created — and the reported counts are empty, a reported total of 0. -/
theorem run_empty_source {α : Type}
    (dc : Option Dtype → Option ParseDates → List α) (dp : List α)
    (url tbl : String) (c : Int) (ff tt : Option String) (fmt : String)
    (hres : ff = some fmt ∨ (ff = none ∧ detect_format url = some fmt))
    (hfmt : fmt = "csv" ∨ fmt = "parquet") (hc : 1 ≤ c)
    (hempty_csv : ∀ ud up, dc ud up = []) (hempty_par : dp = []) :
    read_data_chunked dc dp (some fmt) c none none = Except.ok []
  ∧ run dc dp url tbl c ff tt = ([Event.createEngine, Event.printFinished tbl], none)
  ∧ createCount (run dc dp url tbl c ff tt).1 = 0
  ∧ appendedBatches (run dc dp url tbl c ff tt).1 = ([] : List (List α))
  ∧ reportedCounts (run dc dp url tbl c ff tt).1 = []
  ∧ (reportedCounts (run dc dp url tbl c ff tt).1).sum = 0 := by
  obtain ⟨c', hc'⟩ : ∃ k, c.toNat = k + 1 := ⟨c.toNat - 1, by omega⟩
  have hres' : resolveFormat ff url = some fmt := by
    rcases hres with h | ⟨h1, h2⟩
    · rw [h]; rfl
    · rw [h1]; exact h2
  have hrows : ∀ ud up, decodedRows dc dp ud up fmt = [] := by
    intro ud up
    rcases hfmt with h | h <;> subst h <;> simp [decodedRows, hempty_csv, hempty_par]
  have hread : ∀ ud up, read_data_chunked dc dp (some fmt) c ud up = Except.ok [] := by
    intro ud up
    rw [read_data_chunked_ok dc dp ud up fmt c hfmt hc, hrows, chunkList_nil]
  have hrun : run dc dp url tbl c ff tt
      = ([Event.createEngine, Event.printFinished tbl], none) := by
    rw [run_resolved dc dp url tbl c ff tt fmt hres', hread]
    rfl
  rw [hrun]
  exact ⟨hread none none, rfl, rfl, rfl, rfl, rfl⟩

/-- C8 witness: an empty parquet source under format detection — the trace
is engine creation and the completion message only. -/
theorem run_empty_source_witness :
    read_data_chunked (fun _ _ => ([] : List Nat)) [] (some "parquet") 100000 none none
      = Except.ok []
  ∧ run (fun _ _ => ([] : List Nat)) ([] : List Nat) "u.parquet" "trips" 100000 none none
      = ([Event.createEngine, Event.printFinished "trips"], none) := by
  have h := run_empty_source (fun _ _ => ([] : List Nat)) ([] : List Nat) "u.parquet" "trips"
    100000 none none "parquet" (Or.inr ⟨rfl, by decide⟩) (Or.inr rfl) (by omega)
    (fun _ _ => rfl) rfl
  exact ⟨h.1, h.2.1⟩

end Pipeline
